import Mathlib

/-! Formal model of the bounded-concurrency HTTP dispatcher in src/main.go.
The development embeds, as executable Lean definitions, the program itself
(semaphore, worker, orchestrator, request construction) together with the
behaviour of the Go standard-library routines it calls: the URL parser and
printer of net/url, the relevant fragment of encoding/json, and the request
cloning of net/http.  Go strings are byte strings; they are modelled as
lists of byte values. -/

deriving instance DecidableEq for Except

namespace DispatchModel

/-- Go strings are byte strings; we model them as lists of byte values. -/
abbrev GoStr : Type := List Nat

/-- Embed an ASCII Lean string literal as a Go byte string. -/
def goStr (s : String) : GoStr := s.data.map Char.toNat

/-- strings.HasPrefix. -/
def strHasPfx : GoStr → GoStr → Bool
  | _, [] => true
  | [], _ :: _ => false
  | a :: s, b :: p => if a = b then strHasPfx s p else false

/-- strings.HasSuffix. -/
def strHasSfx (s p : GoStr) : Bool := strHasPfx s.reverse p.reverse

/-- strings.IndexByte, as an optional index. -/
def firstIdxByte : GoStr → Nat → Option Nat
  | [], _ => none
  | a :: s, c => if a = c then some 0 else (firstIdxByte s c).map (· + 1)

/-- strings.LastIndexByte, as an optional index. -/
def lastIdxByte (s : GoStr) (c : Nat) : Option Nat :=
  (firstIdxByte s.reverse c).map (fun i => s.length - 1 - i)

/-- strings.Cut at the first occurrence of byte c; when c is absent the
second component is empty, matching the Go convention used by net/url. -/
def cutByte (c : Nat) (s : GoStr) : GoStr × GoStr :=
  match firstIdxByte s c with
  | some i => (s.take i, s.drop (i + 1))
  | none => (s, [])

/-- strings.Contains for a single byte. -/
def containsByte (s : GoStr) (c : Nat) : Bool := (firstIdxByte s c).isSome

/-- strings.Index for a substring pattern. -/
def idxOfSub : GoStr → GoStr → Option Nat
  | [], pat => if pat = [] then some 0 else none
  | a :: s, pat =>
    if strHasPfx (a :: s) pat then some 0 else (idxOfSub s pat).map (· + 1)

/-- ASCII lower-casing of one byte (strings.ToLower on the scheme, which
getScheme guarantees to be ASCII). -/
def toLowerByte (c : Nat) : Nat := if 65 ≤ c ∧ c ≤ 90 then c + 32 else c

/-- ASCII lower-casing of a byte string. -/
def toLowerStr (s : GoStr) : GoStr := s.map toLowerByte

/-- A control byte in the sense of net/url: below 0x20 or equal to 0x7f. -/
def isCTLByte (c : Nat) : Bool := if c < 32 ∨ c = 127 then true else false

/-- net/url stringContainsCTLByte. -/
def containsCTL (s : GoStr) : Bool := s.any isCTLByte

/-- net/url ishex. -/
def ishexByte (c : Nat) : Bool :=
  if (48 ≤ c ∧ c ≤ 57) ∨ (97 ≤ c ∧ c ≤ 102) ∨ (65 ≤ c ∧ c ≤ 70) then true else false

/-- net/url unhex. -/
def unhexByte (c : Nat) : Nat :=
  if 48 ≤ c ∧ c ≤ 57 then c - 48
  else if 97 ≤ c ∧ c ≤ 102 then c - 97 + 10
  else if 65 ≤ c ∧ c ≤ 70 then c - 65 + 10
  else 0

/-- ASCII digit byte. -/
def isDigitByte (c : Nat) : Bool := if 48 ≤ c ∧ c ≤ 57 then true else false

/-- ASCII letter byte. -/
def isAlphaByte (c : Nat) : Bool :=
  if (65 ≤ c ∧ c ≤ 90) ∨ (97 ≤ c ∧ c ≤ 122) then true else false

/-- The encoding modes of net/url. -/
inductive Enc where
  | path
  | pathSegment
  | host
  | zone
  | userPassword
  | queryComponent
  | fragment
deriving DecidableEq

/-- net/url shouldEscape, byte for byte.  Byte lists name the character
classes of the Go switch statements. -/
def shouldEscape (c : Nat) (mode : Enc) : Bool :=
  -- unreserved alphanumerics
  if (97 ≤ c ∧ c ≤ 122) ∨ (65 ≤ c ∧ c ≤ 90) ∨ (48 ≤ c ∧ c ≤ 57) then false
  -- bytes the host component leaves unescaped: ! $ & apostrophe ( ) * + , ; = : [ ] < > "
  else if (mode = Enc.host ∨ mode = Enc.zone) ∧
      c ∈ [33, 36, 38, 39, 40, 41, 42, 43, 44, 59, 61, 58, 91, 93, 60, 62, 34] then false
  -- unreserved marks: - _ . ~
  else if c = 45 ∨ c = 95 ∨ c = 46 ∨ c = 126 then false
  -- reserved bytes: $ & + , / : ; = ? @
  else if c ∈ [36, 38, 43, 44, 47, 58, 59, 61, 63, 64] then
    match mode with
    | Enc.path => decide (c = 63)
    | Enc.pathSegment => decide (c = 47 ∨ c = 59 ∨ c = 44 ∨ c = 63)
    | Enc.userPassword => decide (c = 64 ∨ c = 47 ∨ c = 63 ∨ c = 58)
    | Enc.queryComponent => true
    | Enc.fragment => false
    | _ => true
  -- sub-delims the fragment additionally leaves unescaped: ! ( ) *
  else if mode = Enc.fragment ∧ (c = 33 ∨ c = 40 ∨ c = 41 ∨ c = 42) then false
  else true

/-- Upper-case hex digit of a value below 16. -/
def hexUpperDigit (n : Nat) : Nat := if n < 10 then 48 + n else 55 + n

/-- One byte of net/url escape output. -/
def escByte (mode : Enc) (c : Nat) : GoStr :=
  if shouldEscape c mode then
    if c = 32 ∧ mode = Enc.queryComponent then [43]
    else [37, hexUpperDigit (c / 16), hexUpperDigit (c % 16)]
  else [c]

/-- net/url escape. -/
def escapeStr (s : GoStr) (mode : Enc) : GoStr :=
  match s with
  | [] => []
  | c :: rest => escByte mode c ++ escapeStr rest mode

/-- Errors surfaced by the modelled net/url routines. -/
inductive UrlErr where
  | escapeErr (s : GoStr)
  | invalidHostByte (s : GoStr)
  | missingScheme
  | missingBracket
  | invalidPort (s : GoStr)
  | invalidUserinfo
  | firstSegColon
  | ctlByte
  | emptyURL
  | invalidURIForRequest
deriving DecidableEq

/-- net/url unescape.  The Go original validates in a first pass and builds
the output in a second; the single recursive pass here produces the same
error (in left-to-right scan order) and the same output. -/
def unescapeStr : GoStr → Enc → Except UrlErr GoStr
  | [], _ => .ok []
  | 37 :: rest, mode =>
    match rest with
    | a :: b :: rest2 =>
      if ishexByte a && ishexByte b then
        -- in the host, percent-encoding is only for non-ASCII bytes, except %25
        if mode = Enc.host ∧ unhexByte a < 8 ∧ ¬(a = 50 ∧ b = 53) then
          .error (.escapeErr [37, a, b])
        -- in a zone, escapes may not introduce bytes needing host escaping, except %25 and space
        else if mode = Enc.zone ∧ ¬(a = 50 ∧ b = 53) ∧
            unhexByte a * 16 + unhexByte b ≠ 32 ∧
            shouldEscape (unhexByte a * 16 + unhexByte b) Enc.host then
          .error (.escapeErr [37, a, b])
        else
          match unescapeStr rest2 mode with
          | .error e => .error e
          | .ok t => .ok ((unhexByte a * 16 + unhexByte b) :: t)
      else .error (.escapeErr ((37 :: rest).take 3))
    | _ => .error (.escapeErr ((37 :: rest).take 3))
  | 43 :: rest, mode =>
    match unescapeStr rest mode with
    | .error e => .error e
    | .ok t => .ok ((if mode = Enc.queryComponent then 32 else 43) :: t)
  | c :: rest, mode =>
    if (mode = Enc.host ∨ mode = Enc.zone) ∧ c < 128 ∧ shouldEscape c mode then
      .error (.invalidHostByte [c])
    else
      match unescapeStr rest mode with
      | .error e => .error e
      | .ok t => .ok (c :: t)

/-- net/url validEncoded. -/
def validEncoded (s : GoStr) (mode : Enc) : Bool :=
  s.all fun c =>
    if c ∈ [33, 36, 38, 39, 40, 41, 42, 43, 44, 59, 61, 58, 64] then true
    else if c = 91 ∨ c = 93 then true
    else if c = 37 then true
    else ! shouldEscape c mode

/-- net/url validOptionalPort. -/
def validOptionalPort : GoStr → Bool
  | [] => true
  | c :: rest => if c = 58 then rest.all isDigitByte else false

/-- net/url validUserinfo.  The Go original ranges over runes; for validity
this coincides with the byte-wise check since every non-ASCII byte is
rejected either way. -/
def validUserinfo (s : GoStr) : Bool :=
  s.all fun c =>
    isAlphaByte c || isDigitByte c ||
      (if c ∈ [45, 46, 95, 58, 126, 33, 36, 38, 39, 40, 41, 42, 43, 44, 59, 61, 37, 64]
       then true else false)

/-- net/url Userinfo. -/
structure GoUser where
  username : GoStr
  password : GoStr
  passwordSet : Bool
deriving DecidableEq

/-- net/url URL, with the fields the program exercises.  The Opaque field
is called opaq here. -/
structure GoURL where
  scheme : GoStr
  opaq : GoStr
  user : Option GoUser
  host : GoStr
  path : GoStr
  rawPath : GoStr
  omitHost : Bool
  forceQuery : Bool
  rawQuery : GoStr
  fragment : GoStr
  rawFragment : GoStr
deriving DecidableEq

/-- The zero URL value. -/
def emptyGoURL : GoURL :=
  { scheme := [], opaq := [], user := none, host := [], path := [], rawPath := []
    omitHost := false, forceQuery := false, rawQuery := [], fragment := []
    rawFragment := [] }

instance : Inhabited GoURL := ⟨emptyGoURL⟩

/-- Recursion core of net/url getScheme: orig is the whole input, accRev the
bytes consumed so far in reverse, rem the remainder.  An empty accRev means
the scan position is 0. -/
def getSchemeCore (orig : GoStr) : GoStr → GoStr → Except UrlErr (GoStr × GoStr)
  | accRev, rem =>
    match rem with
    | [] => .ok ([], orig)
    | c :: rest =>
      if isAlphaByte c then getSchemeCore orig (c :: accRev) rest
      else if isDigitByte c ∨ c = 43 ∨ c = 45 ∨ c = 46 then
        if accRev = [] then .ok ([], orig) else getSchemeCore orig (c :: accRev) rest
      else if c = 58 then
        if accRev = [] then .error .missingScheme else .ok (accRev.reverse, rest)
      else .ok ([], orig)

/-- net/url getScheme: splits a possible leading scheme from the input. -/
def getScheme (s : GoStr) : Except UrlErr (GoStr × GoStr) := getSchemeCore s [] s

/-- net/url parseHost, including the bracketed IP-literal and zone cases. -/
def parseHost (host : GoStr) : Except UrlErr GoStr :=
  if strHasPfx host [91] then
    -- bracketed IP literal, byte 91 is the opening bracket
    match lastIdxByte host 93 with
    | none => .error .missingBracket
    | some i =>
      let colonPort := host.drop (i + 1)
      if ¬ validOptionalPort colonPort then .error (.invalidPort colonPort)
      else
        match idxOfSub (host.take i) (goStr "%25") with
        | some zone =>
          match unescapeStr (host.take zone) Enc.host with
          | .error e => .error e
          | .ok h1 =>
            match unescapeStr ((host.take i).drop zone) Enc.zone with
            | .error e => .error e
            | .ok h2 =>
              match unescapeStr (host.drop i) Enc.host with
              | .error e => .error e
              | .ok h3 => .ok (h1 ++ h2 ++ h3)
        | none => unescapeStr host Enc.host
  else
    match lastIdxByte host 58 with
    | none => unescapeStr host Enc.host
    | some i =>
      let colonPort := host.drop i
      if ¬ validOptionalPort colonPort then .error (.invalidPort colonPort)
      else unescapeStr host Enc.host

/-- net/url parseAuthority: splits userinfo at the last byte 64 (at sign)
and validates both parts.  The host is parsed first, as in Go. -/
def parseAuthority (authority : GoStr) : Except UrlErr (Option GoUser × GoStr) :=
  match lastIdxByte authority 64 with
  | none =>
    match parseHost authority with
    | .error e => .error e
    | .ok h => .ok (none, h)
  | some i =>
    match parseHost (authority.drop (i + 1)) with
    | .error e => .error e
    | .ok h =>
      let userinfo := authority.take i
      if ¬ validUserinfo userinfo then .error .invalidUserinfo
      else if ¬ containsByte userinfo 58 then
        match unescapeStr userinfo Enc.userPassword with
        | .error e => .error e
        | .ok un => .ok (some ⟨un, [], false⟩, h)
      else
        let parts := cutByte 58 userinfo
        match unescapeStr parts.1 Enc.userPassword with
        | .error e => .error e
        | .ok un =>
          match unescapeStr parts.2 Enc.userPassword with
          | .error e => .error e
          | .ok pw => .ok (some ⟨un, pw, true⟩, h)

/-- net/url URL.setPath: stores the unescaped path, keeping the raw form
when it differs from the re-escaped path. -/
def setPathFn (u : GoURL) (p : GoStr) : Except UrlErr GoURL :=
  match unescapeStr p Enc.path with
  | .error e => .error e
  | .ok path =>
    .ok { u with path := path, rawPath := if escapeStr path Enc.path = p then [] else p }

/-- net/url URL.setFragment, the analogue of setPath for the fragment. -/
def setFragmentFn (u : GoURL) (f : GoStr) : Except UrlErr GoURL :=
  match unescapeStr f Enc.fragment with
  | .error e => .error e
  | .ok frag =>
    .ok { u with fragment := frag
                 rawFragment := if escapeStr frag Enc.fragment = f then [] else f }

/-- The split of the part after the double slash into authority and
remaining path, at the first slash. -/
def authoritySplit (rest : GoStr) : GoStr × GoStr :=
  match firstIdxByte (rest.drop 2) 47 with
  | some i => ((rest.drop 2).take i, (rest.drop 2).drop i)
  | none => (rest.drop 2, [])

/-- The tail of net/url parse after scheme and query have been split off:
the opaque, authority and path handling.  The Go control flow that falls
through the missing-slash block into the authority handling is rendered as
the explicit condition chain below; byte 47 is the slash, byte 58 the
colon. -/
def parseAfterScheme (scheme rest : GoStr) (forceQuery : Bool) (rawQuery : GoStr)
    (viaRequest : Bool) : Except UrlErr GoURL :=
  if ¬ strHasPfx rest [47] ∧ scheme ≠ [] then
    .ok { emptyGoURL with scheme := scheme, opaq := rest
                          forceQuery := forceQuery, rawQuery := rawQuery }
  else if ¬ strHasPfx rest [47] ∧ viaRequest then .error .invalidURIForRequest
  else if ¬ strHasPfx rest [47] ∧ containsByte (cutByte 47 rest).1 58 then
    .error .firstSegColon
  else if (scheme ≠ [] ∨ (¬ viaRequest ∧ ¬ strHasPfx rest [47, 47, 47])) ∧
      strHasPfx rest [47, 47] then
    match parseAuthority (authoritySplit rest).1 with
    | .error e => .error e
    | .ok pr =>
      setPathFn
        { emptyGoURL with scheme := scheme, user := pr.1, host := pr.2
                          forceQuery := forceQuery, rawQuery := rawQuery }
        (authoritySplit rest).2
  else
    setPathFn
      { emptyGoURL with scheme := scheme
                        omitHost := scheme ≠ [] ∧ strHasPfx rest [47]
                        forceQuery := forceQuery, rawQuery := rawQuery }
      rest

/-- net/url parse (the worker behind Parse): control-character check, the
star form, scheme extraction with lower-casing, the force-query rule for a
single trailing question mark (byte 63), the query split at the first
question mark, then the opaque, authority and path handling. -/
def urlParseInner (rawURL : GoStr) (viaRequest : Bool) : Except UrlErr GoURL :=
  if containsCTL rawURL then .error .ctlByte
  else if rawURL = [] ∧ viaRequest then .error .emptyURL
  else if rawURL = [42] then .ok { emptyGoURL with path := [42] }
  else
    match getScheme rawURL with
    | .error e => .error e
    | .ok pr =>
      if strHasSfx pr.2 [63] ∧ ¬ containsByte pr.2.dropLast 63 then
        parseAfterScheme (toLowerStr pr.1) pr.2.dropLast true [] viaRequest
      else
        parseAfterScheme (toLowerStr pr.1) (cutByte 63 pr.2).1 false (cutByte 63 pr.2).2
          viaRequest

/-- net/url Parse: cuts the fragment at the first byte 35, parses the rest,
then installs the fragment when one is present. -/
def urlParse (rawURL : GoStr) : Except UrlErr GoURL :=
  match urlParseInner (cutByte 35 rawURL).1 false with
  | .error e => .error e
  | .ok u =>
    if (cutByte 35 rawURL).2 = [] then .ok u
    else setFragmentFn u (cutByte 35 rawURL).2

/-- net/url Userinfo.String. -/
def userinfoStr (ui : GoUser) : GoStr :=
  escapeStr ui.username Enc.userPassword ++
    (if ui.passwordSet then 58 :: escapeStr ui.password Enc.userPassword else [])

/-- Does the raw form unescape, in the given mode, exactly to the stored
decoded form?  Used by EscapedPath and EscapedFragment. -/
def unescapesTo (raw : GoStr) (mode : Enc) (decoded : GoStr) : Bool :=
  match unescapeStr raw mode with
  | .ok p => decide (p = decoded)
  | .error _ => false

/-- net/url URL.EscapedPath. -/
def escapedPath (u : GoURL) : GoStr :=
  if u.rawPath ≠ [] ∧ validEncoded u.rawPath Enc.path ∧
      unescapesTo u.rawPath Enc.path u.path then
    u.rawPath
  else if u.path = [42] then [42]
  else escapeStr u.path Enc.path

/-- net/url URL.EscapedFragment. -/
def escapedFragment (u : GoURL) : GoStr :=
  if u.rawFragment ≠ [] ∧ validEncoded u.rawFragment Enc.fragment ∧
      unescapesTo u.rawFragment Enc.fragment u.fragment then
    u.rawFragment
  else escapeStr u.fragment Enc.fragment

/-- Everything net/url URL.String writes after the scheme.  The buffer-empty
test guarding the leading dot-slash is equivalent to: no scheme was written
and neither an authority nor an extra slash precedes the path. -/
def urlStringAfterScheme (u : GoURL) : GoStr :=
  if u.opaq ≠ [] then u.opaq
  else
    let auth :=
      if u.scheme ≠ [] ∨ u.host ≠ [] ∨ u.user ≠ none then
        if u.omitHost ∧ u.host = [] ∧ u.user = none then []
        else
          (if u.host ≠ [] ∨ u.path ≠ [] ∨ u.user ≠ none then [47, 47] else []) ++
            (match u.user with
             | some ui => userinfoStr ui ++ [64]
             | none => []) ++
            escapeStr u.host Enc.host
      else []
    let p := escapedPath u
    let slash := if p ≠ [] ∧ p.head? ≠ some 47 ∧ u.host ≠ [] then [47] else []
    let dotSlash :=
      if u.scheme = [] ∧ auth = [] ∧ slash = [] ∧ containsByte (cutByte 47 p).1 58
      then [46, 47] else []
    auth ++ slash ++ dotSlash ++ p

/-- net/url URL.String. -/
def urlString (u : GoURL) : GoStr :=
  (if u.scheme ≠ [] then u.scheme ++ [58] else []) ++
    urlStringAfterScheme u ++
    (if u.forceQuery ∨ u.rawQuery ≠ [] then 63 :: u.rawQuery else []) ++
    (if u.fragment ≠ [] then 35 :: escapedFragment u else [])

/-- ValidateURL from src/main.go: parse, default the scheme to https when
absent, and return the canonical string form. -/
def ValidateURL (input : GoStr) : Except UrlErr GoStr :=
  match urlParse input with
  | .error e => .error e
  | .ok u =>
    if u.scheme = [] then .ok (urlString { u with scheme := goStr "https" })
    else .ok (urlString u)

/-- Bool-valued success test for Except. -/
def exOk {ε α : Type} : Except ε α → Bool
  | .ok _ => true
  | .error _ => false

/-- Except to Option, discarding the error as the blank identifier does in
Go multiple assignment. -/
def exToOption {ε α : Type} : Except ε α → Option α
  | .ok a => some a
  | .error _ => none

/-- Location from src/main.go: one parsed input record. -/
structure Location where
  URL : GoStr
deriving DecidableEq

/-- PayLoad from src/main.go.  Buf is a pointer to a buffer: none is a nil
pointer, some holds the buffer contents. -/
structure PayLoad where
  Data : GoStr
  Buf : Option GoStr
deriving DecidableEq

/-- Lower-case hex digit of a value below 16, as encoding/json uses. -/
def hexLowerDigit (n : Nat) : Nat := if n < 10 then 48 + n else 87 + n

/-- encoding/json string encoding for ASCII data: quote, backslash, newline,
carriage return, tab get two-byte escapes, other control bytes and the three
HTML-sensitive bytes < > & get six-byte escapes, everything else is copied.
Bytes at 128 and above are copied, faithful for the ASCII payloads the
program produces. -/
def jsonStringByte (c : Nat) : GoStr :=
  if c = 34 then [92, 34]
  else if c = 92 then [92, 92]
  else if c = 10 then [92, 110]
  else if c = 13 then [92, 114]
  else if c = 9 then [92, 116]
  else if c < 32 ∨ c = 60 ∨ c = 62 ∨ c = 38 then
    [92, 117, 48, 48, hexLowerDigit (c / 16), hexLowerDigit (c % 16)]
  else [c]

/-- encoding/json quoted string literal for a byte string. -/
def jsonQuoteStr (s : GoStr) : GoStr :=
  34 :: (s.foldr (fun c acc => jsonStringByte c ++ acc) [34])

/-- json.Marshal on a PayLoad value: the exported fields in declaration
order, Data under its tag, Buf under its own name; a nil pointer encodes
as null and a bytes.Buffer value, having no exported fields, as an empty
object. -/
def marshalPayLoad (p : PayLoad) : GoStr :=
  goStr "\x7b\"data\":" ++ jsonQuoteStr p.Data ++ goStr ",\"Buf\":" ++
    (match p.Buf with
     | none => goStr "null"
     | some _ => goStr "\x7b\x7d") ++
    goStr "\x7d"

/-- http.Request, with the fields the program exercises: method, URL (a
pointer, none when nil), header and the body buffer contents. -/
structure Request where
  method : GoStr
  url : Option GoURL
  header : List (GoStr × GoStr)
  body : GoStr
deriving DecidableEq

instance : Inhabited Request := ⟨{ method := [], url := none, header := [], body := [] }⟩

/-- http.Header.Set: replace the value of the key when present, append
otherwise.  The keys the program uses are already in canonical form. -/
def headerSet : List (GoStr × GoStr) → GoStr → GoStr → List (GoStr × GoStr)
  | [], k, v => [(k, v)]
  | (k0, v0) :: rest, k, v =>
    if k0 = k then (k, v) :: rest else (k0, v0) :: headerSet rest k v

/-- The fixed destination endpoint of src/main.go. -/
def endpointStr : GoStr := goStr "https://bar.com"

/-- createBaseRequest from src/main.go: marshal the payload (which cannot
fail for this type: every field encoder is total), build a POST request to
the fixed placeholder destination (http.NewRequestWithContext parses it and
would fail on a parse error), and set the content-type header. -/
def createBaseRequest (payload : PayLoad) : Except GoStr Request :=
  let jsonData := marshalPayLoad payload
  match urlParse endpointStr with
  | .error _ => .error (goStr "error creating request")
  | .ok u =>
    .ok { method := goStr "POST", url := some u
          header := headerSet [] (goStr "Content-Type") (goStr "application/json")
          body := jsonData }

/-- The payload main builds the template from. -/
def examplePayload : PayLoad := { Data := goStr "example data", Buf := none }

/-- Serialization of the record holding only the data member, written from
the words of the spec for comparison against the body the code builds. -/
def specDataOnlyBody (d : GoStr) : GoStr :=
  goStr "\x7b\"data\":" ++ jsonQuoteStr d ++ goStr "\x7d"

/-- Observable events of one dispatch worker, in program order: semaphore
operations, wait-group completion, the log lines, the outbound send and the
success print. -/
inductive Ev where
  | acq
  | rel
  | wgDone
  | logInvalid (loc : GoStr)
  | logTimeout (u : GoStr)
  | logSendErr
  | logCopyErr
  | printData (b : GoStr)
  | send (r : Request)
deriving DecidableEq

/-- Environment choices for one worker: whether client.Do fails, whether
the five-second context deadline has expired at the error check, whether
reading the response body fails, and the received body bytes. -/
structure WEnv where
  sendErr : Bool
  deadlineExceeded : Bool
  copyErr : Bool
  respBody : GoStr

/-- The body of processLocation between Acquire and the deferred Release:
validate, gate on the fixed endpoint, clone the template overriding its URL
with the re-parse of the validated string (the re-parse error is discarded),
send, classify failures, read and print the body. -/
def workerBody (base : Request) (loc : Location) (env : WEnv) : List Ev :=
  match ValidateURL loc.URL with
  | .error _ => [.logInvalid loc.URL]
  | .ok v =>
    if v = endpointStr then
      .send { base with url := exToOption (urlParse v) } ::
        (if env.sendErr then
          if env.deadlineExceeded then [.logTimeout v] else [.logSendErr]
        else if env.copyErr then [.logCopyErr]
        else [.printData env.respBody])
    else []

/-- processLocation from src/main.go as an event trace: Acquire runs first,
then the body, then the deferred calls in last-in first-out order, Release
before wg.Done. -/
def workerTrace (base : Request) (loc : Location) (env : WEnv) : List Ev :=
  .acq :: (workerBody base loc env ++ [.rel, .wgDone])

/-- Semaphore capacity: NewSemaphore(10) in main. -/
def capN : Nat := 10

/-- Effect of an event on the semaphore channel length. -/
def applyEv : Ev → Nat → Nat
  | .acq, c => c + 1
  | .rel, c => c - 1
  | _, c => c

/-- When an event can fire: a send on the buffered channel needs a free
slot, a receive needs a buffered element, everything else is unconditional. -/
def enabledEv : Ev → Nat → Prop
  | .acq, c => c < capN
  | .rel, c => 0 < c
  | _, _ => True

/-- Global state: the semaphore channel length and the events each
dispatched worker has yet to perform. -/
structure Sys where
  count : Nat
  workers : List (List Ev)

/-- One interleaving step: some worker performs its next event. -/
inductive SysStep : Sys → Sys → Prop where
  | step {s : Sys} (i : Nat) (e : Ev) (rest : List Ev)
      (hw : s.workers.get? i = some (e :: rest))
      (he : enabledEv e s.count) :
      SysStep s ⟨applyEv e s.count, s.workers.set i rest⟩

/-- Reachability under any interleaving. -/
inductive Reach : Sys → Sys → Prop where
  | refl (s : Sys) : Reach s s
  | tail {s t u : Sys} : Reach s t → SysStep t u → Reach s u

/-- A worker currently holds a slot when it has performed its acquire but
not yet its release. -/
def holding (r : List Ev) : Bool := decide (Ev.rel ∈ r) && ! decide (Ev.acq ∈ r)

/-- Number of workers holding a slot. -/
def numHolding (ws : List (List Ev)) : Nat := ws.countP holding

/-- Worker lists dispatched by main: one per location, each with its own
environment. -/
def initWs (base : Request) (envs : Nat → WEnv) : List Location → Nat → List (List Ev)
  | [], _ => []
  | l :: ls, i => workerTrace base l (envs i) :: initWs base envs ls (i + 1)

/-- The state right after main has spawned every worker: empty semaphore,
every worker still to run. -/
def initSys (base : Request) (locs : List Location) (envs : Nat → WEnv) : Sys :=
  ⟨0, initWs base envs locs 0⟩

/-- Orchestrator environment: the result of reading input.txt, the result
of json.Unmarshal on its contents, and the per-worker environments. -/
structure MainEnv where
  fileData : Except GoStr GoStr
  unmarshalRes : GoStr → Except GoStr (List Location)
  envs : Nat → WEnv

/-- The startup phase of main: read the file, parse the list, build the
template; the first failure is fatal. -/
def startupRes (menv : MainEnv) : Except GoStr (Request × List Location) :=
  match menv.fileData with
  | .error e => .error e
  | .ok d =>
    match menv.unmarshalRes d with
    | .error e => .error e
    | .ok locs =>
      match createBaseRequest examplePayload with
      | .error e => .error e
      | .ok req => .ok (req, locs)

/-- Process exit code: log.Fatal exits 1, a normal return from main exits 0. -/
def mainExit (menv : MainEnv) : Nat :=
  match startupRes menv with
  | .error _ => 1
  | .ok _ => 0

/-- Heap of request objects, for the per-worker cloning of the shared
template. -/
structure Heap where
  cells : List Request

/-- Lines 93 to 95 of src/main.go: Clone copies the request at index i
(deep-copying header and URL, sharing the body reader), and the assignment
then replaces the clone's URL pointer with the re-parse of the validated
string, discarding the parse error.  The net new object is the template
value with only the url field replaced; it is appended as a fresh cell. -/
def cloneAndOverride (h : Heap) (i : Nat) (v : GoStr) : Heap × Nat :=
  let t := (h.cells.get? i).getD default
  (⟨h.cells ++ [{ t with url := exToOption (urlParse v) }]⟩, h.cells.length)

/-- Is this event the outbound send? -/
def isSendEv : Ev → Bool
  | .send _ => true
  | _ => false

/-- Is this event one of the error log lines? -/
def isLogEv : Ev → Bool
  | .logInvalid _ => true
  | .logTimeout _ => true
  | .logSendErr => true
  | .logCopyErr => true
  | _ => false

/-- An event list free of semaphore operations. -/
def noSem (m : List Ev) : Prop := Ev.acq ∉ m ∧ Ev.rel ∉ m

/-- The shapes a worker's remaining event list can take: not yet acquired,
holding a slot with some work left, released but not yet counted done, or
finished. -/
def wfT (r : List Ev) : Prop :=
  (∃ m, r = Ev.acq :: (m ++ [Ev.rel, Ev.wgDone]) ∧ noSem m) ∨
  (∃ m, r = m ++ [Ev.rel, Ev.wgDone] ∧ noSem m) ∨
  r = [Ev.wgDone] ∨ r = []

/-- The system invariant: the semaphore channel length equals the number of
workers holding a slot, stays within capacity, and every worker's remainder
is well-shaped. -/
def SysInv (s : Sys) : Prop :=
  s.count = numHolding s.workers ∧ s.count ≤ capN ∧ ∀ r ∈ s.workers, wfT r

/-- Net effect of a whole event list on the semaphore channel length. -/
def applyTrace (tr : List Ev) (c : Nat) : Nat :=
  tr.foldl (fun c e => applyEv e c) c

/-- The parsed value of the fixed endpoint. -/
def barURL : GoURL := { emptyGoURL with scheme := goStr "https", host := goStr "bar.com" }

/-! Helper lemmas about the worker trace and the semaphore system. -/

/-- The worker body between Acquire and Release performs no semaphore
operation of its own: every branch of processLocation emits only logging,
send and print events there. -/
theorem workerBody_noSem (base : Request) (loc : Location) (env : WEnv) :
    noSem (workerBody base loc env) := by
  unfold noSem workerBody
  cases h : ValidateURL loc.URL with
  | error e => simp
  | ok v =>
    by_cases hv : v = endpointStr
    · cases hs : env.sendErr <;> cases hd : env.deadlineExceeded <;>
        cases hc : env.copyErr <;> simp [hv, hs, hd, hc]
    · simp [hv]

/-- Reduction of the worker body once the validation result is known. -/
theorem workerBody_ok (base : Request) (loc : Location) (env : WEnv) (v : GoStr)
    (h : ValidateURL loc.URL = .ok v) :
    workerBody base loc env =
      if v = endpointStr then
        Ev.send { base with url := exToOption (urlParse v) } ::
          (if env.sendErr then
            if env.deadlineExceeded then [Ev.logTimeout v] else [Ev.logSendErr]
          else if env.copyErr then [Ev.logCopyErr]
          else [Ev.printData env.respBody])
      else [] := by
  unfold workerBody
  rw [h]

/-- Events other than acquire and release leave the channel length alone. -/
theorem applyEv_other {e : Ev} (h1 : e ≠ Ev.acq) (h2 : e ≠ Ev.rel) (c : Nat) :
    applyEv e c = c := by
  cases e <;> simp_all [applyEv]

/-- With the channel neither empty nor full, every event is enabled. -/
theorem enabledEv_mid {c : Nat} (h1 : 0 < c) (h2 : c < capN) (e : Ev) :
    enabledEv e c := by
  cases e <;> simp [enabledEv, h1, h2]

/-- Replacing the element at a position changes countP by the difference of
the predicate at the old and new elements. -/
theorem countP_set_idx {α : Type} (p : α → Bool) :
    ∀ (ws : List α) (i : Nat) (a b : α), ws.get? i = some a →
      (ws.set i b).countP p + (if p a then 1 else 0) =
        ws.countP p + (if p b then 1 else 0) := by
  intro ws
  induction ws with
  | nil => intro i a b h; simp at h
  | cons x xs ih =>
    intro i a b h
    cases i with
    | zero =>
      simp only [List.get?] at h
      injection h with h
      subst h
      cases hpa : p x <;> cases hpb : p b <;>
        simp [List.set, List.countP_cons, hpa, hpb] <;> omega
    | succ n =>
      have hx := ih n a b (by simpa using h)
      cases hpx : p x <;> simp [List.set, List.countP_cons, hpx] <;> omega

/-- A full worker trace is well-shaped. -/
theorem wfT_workerTrace (base : Request) (loc : Location) (env : WEnv) :
    wfT (workerTrace base loc env) :=
  Or.inl ⟨workerBody base loc env, rfl, workerBody_noSem base loc env⟩

/-- A worker that has not yet acquired holds no slot. -/
theorem holding_workerTrace (base : Request) (loc : Location) (env : WEnv) :
    holding (workerTrace base loc env) = false := by
  simp [holding, workerTrace]

/-- Every worker list main dispatches is a full trace. -/
theorem initWs_mem (base : Request) (envs : Nat → WEnv) :
    ∀ (ls : List Location) (i : Nat) (r : List Ev), r ∈ initWs base envs ls i →
      ∃ l j, r = workerTrace base l (envs j) := by
  intro ls
  induction ls with
  | nil => intro i r h; simp [initWs] at h
  | cons l ls ih =>
    intro i r h
    simp only [initWs, List.mem_cons] at h
    rcases h with h | h
    · exact ⟨l, i, h⟩
    · exact ih (i + 1) r h

/-- The invariant holds at the launch state. -/
theorem sysInv_init (base : Request) (locs : List Location) (envs : Nat → WEnv) :
    SysInv (initSys base locs envs) := by
  refine ⟨?_, by simp [initSys, capN], ?_⟩
  · have : numHolding (initSys base locs envs).workers = 0 := by
      apply List.countP_eq_zero.mpr
      intro r hr
      obtain ⟨l, j, rfl⟩ := initWs_mem base envs locs 0 r hr
      simp [holding_workerTrace]
    simpa [initSys] using this.symm
  · intro r hr
    obtain ⟨l, j, rfl⟩ := initWs_mem base envs locs 0 r hr
    exact wfT_workerTrace base l (envs j)

/-- One interleaving step preserves the invariant. -/
theorem sysInv_step {s t : Sys} (hinv : SysInv s) (hst : SysStep s t) : SysInv t := by
  obtain ⟨hcount, hcap, hwf⟩ := hinv
  cases hst with
  | step i e rest hw he =>
    have hmem : (e :: rest) ∈ s.workers := List.get?_mem hw
    have hwfr := hwf _ hmem
    have hset := countP_set_idx holding s.workers i (e :: rest) rest hw
    have hmem_set : ∀ r ∈ s.workers.set i rest, r = rest ∨ wfT r := by
      intro r hr
      rcases List.mem_or_eq_of_mem_set hr with h | h
      · exact Or.inr (hwf r h)
      · exact Or.inl h
    rcases hwfr with ⟨m, hm, hns⟩ | ⟨m, hm, hns⟩ | hm | hm
    · -- the worker acquires
      injection hm with he1 hr1
      subst he1
      subst hr1
      have hlt : s.count < capN := he
      have h1 : holding (Ev.acq :: (m ++ [Ev.rel, Ev.wgDone])) = false := by simp [holding]
      have h2 : holding (m ++ [Ev.rel, Ev.wgDone]) = true := by
        simp [holding, hns.1, hns.2]
      rw [h1, h2] at hset
      simp at hset
      refine ⟨?_, ?_, ?_⟩
      · show applyEv Ev.acq s.count = numHolding (s.workers.set i (m ++ [Ev.rel, Ev.wgDone]))
        simp only [applyEv, numHolding] at *
        omega
      · show applyEv Ev.acq s.count ≤ capN
        simp only [applyEv]
        omega
      · intro r hr
        rcases hmem_set r hr with rfl | h
        · exact Or.inr (Or.inl ⟨m, rfl, hns⟩)
        · exact h
    · cases m with
      | nil =>
        -- the worker releases
        simp only [List.nil_append] at hm
        injection hm with he1 hr1
        subst he1
        subst hr1
        have hpos : 0 < s.count := he
        have h1 : holding [Ev.rel, Ev.wgDone] = true := by simp [holding]
        have h2 : holding [Ev.wgDone] = false := by simp [holding]
        rw [h1, h2] at hset
        simp at hset
        refine ⟨?_, ?_, ?_⟩
        · show applyEv Ev.rel s.count = numHolding (s.workers.set i [Ev.wgDone])
          simp only [applyEv, numHolding] at *
          omega
        · show applyEv Ev.rel s.count ≤ capN
          simp only [applyEv]
          omega
        · intro r hr
          rcases hmem_set r hr with rfl | h
          · exact Or.inr (Or.inr (Or.inl rfl))
          · exact h
      | cons x m2 =>
        -- one internal event of the body
        rw [List.cons_append] at hm
        injection hm with he1 hr1
        subst he1
        subst hr1
        have hne_acq : e ≠ Ev.acq := fun hc => hns.1 (by simp [hc])
        have hne_rel : e ≠ Ev.rel := fun hc => hns.2 (by simp [hc])
        have hns2 : noSem m2 :=
          ⟨fun hc => hns.1 (by simp [hc]), fun hc => hns.2 (by simp [hc])⟩
        have h1 : holding (e :: (m2 ++ [Ev.rel, Ev.wgDone])) = true := by
          simp [holding, hns2.1, hns2.2, Ne.symm hne_acq]
        have h2 : holding (m2 ++ [Ev.rel, Ev.wgDone]) = true := by
          simp [holding, hns2.1, hns2.2]
        rw [h1, h2] at hset
        simp at hset
        rw [applyEv_other hne_acq hne_rel]
        refine ⟨?_, hcap, ?_⟩
        · simp only [numHolding] at *
          omega
        · intro r hr
          rcases hmem_set r hr with rfl | h
          · exact Or.inr (Or.inl ⟨m2, rfl, hns2⟩)
          · exact h
    · -- the worker signals the wait group
      injection hm with he1 hr1
      subst he1
      subst hr1
      have h1 : holding [Ev.wgDone] = false := by simp [holding]
      have h2 : holding ([] : List Ev) = false := by simp [holding]
      rw [h1, h2] at hset
      simp at hset
      refine ⟨?_, ?_, ?_⟩
      · show applyEv Ev.wgDone s.count = numHolding (s.workers.set i [])
        simp only [applyEv, numHolding] at *
        omega
      · show applyEv Ev.wgDone s.count ≤ capN
        simpa [applyEv] using hcap
      · intro r hr
        rcases hmem_set r hr with rfl | h
        · exact Or.inr (Or.inr (Or.inr rfl))
        · exact h
    · exact absurd hm (by simp)

/-- The invariant holds at every reachable state. -/
theorem sysInv_reach {s t : Sys} (hinv : SysInv s) (h : Reach s t) : SysInv t := by
  induction h with
  | refl => exact hinv
  | tail hr hs ih => exact sysInv_step ih hs

/-- Reachability is transitive. -/
theorem reach_trans {a b c : Sys} (h1 : Reach a b) (h2 : Reach b c) : Reach a c := by
  induction h2 with
  | refl => exact h1
  | tail hr hs ih => exact Reach.tail ih hs

/-- A step of a tail system is a step of the extended system. -/
theorem sysStep_lift_cons (x : List Ev) {s t : Sys} (h : SysStep s t) :
    SysStep ⟨s.count, x :: s.workers⟩ ⟨t.count, x :: t.workers⟩ := by
  cases h with
  | step i e rest hw he =>
    have hs : SysStep ⟨s.count, x :: s.workers⟩
        ⟨applyEv e s.count, (x :: s.workers).set (i + 1) rest⟩ :=
      SysStep.step (i + 1) e rest (by simpa using hw) he
    simpa [List.set] using hs

/-- An execution of a tail system is an execution of the extended system. -/
theorem reach_lift_cons (x : List Ev) {s t : Sys} (h : Reach s t) :
    Reach ⟨s.count, x :: s.workers⟩ ⟨t.count, x :: t.workers⟩ := by
  induction h with
  | refl => exact Reach.refl _
  | tail hr hs ih => exact Reach.tail ih (sysStep_lift_cons x hs)

/-- The first worker can run its whole body: each internal event is enabled
with one slot held and leaves the channel length at one. -/
theorem drain_mid (m : List Ev) (hns : noSem m) (tl : List Ev) (ws : List (List Ev)) :
    Reach ⟨1, (m ++ tl) :: ws⟩ ⟨1, tl :: ws⟩ := by
  induction m with
  | nil => exact Reach.refl _
  | cons x m2 ih =>
    have hne_acq : x ≠ Ev.acq := fun hc => hns.1 (by simp [hc])
    have hne_rel : x ≠ Ev.rel := fun hc => hns.2 (by simp [hc])
    have hns2 : noSem m2 :=
      ⟨fun hc => hns.1 (by simp [hc]), fun hc => hns.2 (by simp [hc])⟩
    have hstep : SysStep ⟨1, (x :: (m2 ++ tl)) :: ws⟩ ⟨applyEv x 1, (m2 ++ tl) :: ws⟩ :=
      SysStep.step 0 x (m2 ++ tl) rfl (enabledEv_mid (c := 1) (by omega) (by simp [capN]) x)
    rw [applyEv_other hne_acq hne_rel] at hstep
    exact reach_trans (Reach.tail (Reach.refl _) (by simpa using hstep)) (ih hns2)

/-- The first worker can run to completion from an empty channel, returning
it empty. -/
theorem drain_worker (base : Request) (loc : Location) (env : WEnv)
    (ws : List (List Ev)) :
    Reach ⟨0, workerTrace base loc env :: ws⟩ ⟨0, ([] : List Ev) :: ws⟩ := by
  have h1 : SysStep ⟨0, workerTrace base loc env :: ws⟩
      ⟨1, (workerBody base loc env ++ [Ev.rel, Ev.wgDone]) :: ws⟩ := by
    have := SysStep.step (s := ⟨0, workerTrace base loc env :: ws⟩) 0 Ev.acq
      (workerBody base loc env ++ [Ev.rel, Ev.wgDone]) rfl (by simp [enabledEv, capN])
    simpa [applyEv] using this
  have h2 : Reach ⟨1, (workerBody base loc env ++ [Ev.rel, Ev.wgDone]) :: ws⟩
      ⟨1, [Ev.rel, Ev.wgDone] :: ws⟩ :=
    drain_mid (workerBody base loc env) (workerBody_noSem base loc env) _ ws
  have h3 : SysStep ⟨1, [Ev.rel, Ev.wgDone] :: ws⟩ ⟨0, [Ev.wgDone] :: ws⟩ := by
    have := SysStep.step (s := ⟨1, [Ev.rel, Ev.wgDone] :: ws⟩) 0 Ev.rel
      [Ev.wgDone] rfl (by simp [enabledEv])
    simpa [applyEv] using this
  have h4 : SysStep ⟨0, [Ev.wgDone] :: ws⟩ ⟨0, ([] : List Ev) :: ws⟩ := by
    have := SysStep.step (s := ⟨0, [Ev.wgDone] :: ws⟩) 0 Ev.wgDone [] rfl (by simp [enabledEv])
    simpa [applyEv] using this
  exact Reach.tail (Reach.tail (reach_trans (Reach.tail (Reach.refl _) h1) h2) h3) h4

/-- Every dispatched worker can run to completion, one after the other. -/
theorem drain_all (base : Request) (envs : Nat → WEnv) :
    ∀ (ls : List Location) (i : Nat),
      Reach ⟨0, initWs base envs ls i⟩ ⟨0, List.replicate ls.length ([] : List Ev)⟩ := by
  intro ls
  induction ls with
  | nil => intro i; exact Reach.refl _
  | cons l ls2 ih =>
    intro i
    have h1 : Reach ⟨0, initWs base envs (l :: ls2) i⟩
        ⟨0, ([] : List Ev) :: initWs base envs ls2 (i + 1)⟩ :=
      drain_worker base l (envs i) _
    have h2 : Reach ⟨0, ([] : List Ev) :: initWs base envs ls2 (i + 1)⟩
        ⟨0, ([] : List Ev) :: List.replicate ls2.length ([] : List Ev)⟩ :=
      reach_lift_cons [] (ih (i + 1))
    simpa [List.replicate] using reach_trans h1 h2

/-! Claim theorems. -/

/-- C1: for every input list, every assignment of worker outcomes and every
interleaving of worker executions, the number of workers that have acquired
and not yet released a limiter slot never exceeds the configured capacity
of ten, and that number always equals the semaphore channel length, which
therefore always satisfies zero at most count at most ten (counts are
natural numbers, so the lower bound is inherent). -/
theorem c1_limiter_invariant (base : Request) (locs : List Location) (envs : Nat → WEnv)
    (s : Sys) (h : Reach (initSys base locs envs) s) :
    s.count = numHolding s.workers ∧ numHolding s.workers ≤ capN ∧ s.count ≤ capN := by
  have hinv := sysInv_reach (sysInv_init base locs envs) h
  obtain ⟨h1, h2, _⟩ := hinv
  exact ⟨h1, h1 ▸ h2, h2⟩

/-- Witness for C1 at a concrete launch state. -/
theorem c1_limiter_invariant_witness :
    (initSys (default : Request) [⟨goStr "bar.com"⟩] (fun _ => ⟨false, false, false, []⟩)).count =
        numHolding (initSys (default : Request) [⟨goStr "bar.com"⟩]
          (fun _ => ⟨false, false, false, []⟩)).workers ∧
      numHolding (initSys (default : Request) [⟨goStr "bar.com"⟩]
          (fun _ => ⟨false, false, false, []⟩)).workers ≤ capN ∧
      (initSys (default : Request) [⟨goStr "bar.com"⟩]
          (fun _ => ⟨false, false, false, []⟩)).count ≤ capN :=
  c1_limiter_invariant _ _ _ _ (Reach.refl _)

/-- C2: on every exit path of a dispatch worker, for every validation and
send outcome, the trace performs exactly one acquire, first, and exactly
one release, after all the work and before wg.Done, with no semaphore
operation in between; consequently running the whole trace restores the
semaphore channel length to its pre-worker value. -/
theorem c2_acquire_release_paired (base : Request) (loc : Location) (env : WEnv) :
    (∃ m, workerTrace base loc env = Ev.acq :: (m ++ [Ev.rel, Ev.wgDone]) ∧
        Ev.acq ∉ m ∧ Ev.rel ∉ m) ∧
    ∀ c : Nat, applyTrace (workerTrace base loc env) c = c := by
  have hns := workerBody_noSem base loc env
  constructor
  · exact ⟨workerBody base loc env, rfl, hns.1, hns.2⟩
  · intro c
    have hmid : ∀ (m : List Ev), noSem m → ∀ c2 : Nat,
        m.foldl (fun c3 e => applyEv e c3) c2 = c2 := by
      intro m
      induction m with
      | nil => intro _ c2; rfl
      | cons x m2 ih =>
        intro hns2 c2
        have hne_acq : x ≠ Ev.acq := fun hc => hns2.1 (by simp [hc])
        have hne_rel : x ≠ Ev.rel := fun hc => hns2.2 (by simp [hc])
        have hns3 : noSem m2 :=
          ⟨fun hc => hns2.1 (by simp [hc]), fun hc => hns2.2 (by simp [hc])⟩
        simp only [List.foldl_cons, applyEv_other hne_acq hne_rel]
        exact ih hns3 c2
    unfold applyTrace workerTrace
    simp only [List.foldl_cons, List.foldl_append]
    rw [show applyEv Ev.acq c = c + 1 from rfl]
    rw [hmid (workerBody base loc env) hns (c + 1)]
    simp [applyEv]

/-- C3 counterexample: a target whose address fails validation still
acquires a limiter slot, because processLocation acquires on line 79 before
validating on line 83; the trace of the worker for an invalid address
begins with the acquire and contains the invalid-URL log after it. -/
theorem c3_counterexample :
    exOk (ValidateURL (goStr "::::not a url")) = false ∧
    workerTrace (default : Request) ⟨goStr "::::not a url"⟩ ⟨false, false, false, []⟩ =
      [Ev.acq, Ev.logInvalid (goStr "::::not a url"), Ev.rel, Ev.wgDone] := by
  constructor
  · rfl
  · rfl

/-- C3 amended: the dispatch worker acquires a Concurrency Limiter slot
before validating the target address; a target whose address fails
validation logs and terminates, releasing the slot it acquired, so an
invalid target does briefly occupy a slot. -/
theorem c3_amended (base : Request) (loc : Location) (env : WEnv) (e : UrlErr)
    (h : ValidateURL loc.URL = .error e) :
    workerTrace base loc env = [Ev.acq, Ev.logInvalid loc.URL, Ev.rel, Ev.wgDone] := by
  unfold workerTrace workerBody
  rw [h]
  rfl

/-- Witness for C3 amended at the malformed address of the spec scenario. -/
theorem c3_amended_witness :
    workerTrace (default : Request) ⟨goStr "::::not a url"⟩ ⟨true, false, true, []⟩ =
      [Ev.acq, Ev.logInvalid (goStr "::::not a url"), Ev.rel, Ev.wgDone] :=
  c3_amended (default : Request) ⟨goStr "::::not a url"⟩ ⟨true, false, true, []⟩
    UrlErr.missingScheme (by rfl)

/-- C4 counterexample: the body of the built template is not the JSON
serialization of a record holding only the data member; the exported Buf
pointer field of PayLoad is marshalled too, as a null member. -/
theorem c4_counterexample :
    createBaseRequest examplePayload =
      .ok { method := goStr "POST", url := some barURL
            header := [(goStr "Content-Type", goStr "application/json")]
            body := goStr "\x7b\"data\":\"example data\",\"Buf\":null\x7d" } ∧
    goStr "\x7b\"data\":\"example data\",\"Buf\":null\x7d" ≠
      specDataOnlyBody (goStr "example data") := by
  exact ⟨by decide, by decide⟩

/-- C4 amended: for every payload string, the built request template has
method POST, the fixed placeholder destination, the content-type header set
to application/json, and a body that is the Go JSON serialization of the
whole PayLoad struct: the data member followed by a null Buf member
contributed by the exported buffer field. -/
theorem c4_amended (d : GoStr) :
    createBaseRequest { Data := d, Buf := none } =
      .ok { method := goStr "POST", url := some barURL
            header := [(goStr "Content-Type", goStr "application/json")]
            body := goStr "\x7b\"data\":" ++ jsonQuoteStr d ++ goStr ",\"Buf\":null\x7d" } := by
  have hlit : goStr ",\"Buf\":" ++ (goStr "null" ++ goStr "\x7d") = goStr ",\"Buf\":null\x7d" := by
    decide
  have hbody : marshalPayLoad { Data := d, Buf := none } =
      goStr "\x7b\"data\":" ++ jsonQuoteStr d ++ goStr ",\"Buf\":null\x7d" := by
    show goStr "\x7b\"data\":" ++ jsonQuoteStr d ++ goStr ",\"Buf\":" ++ goStr "null" ++
        goStr "\x7d" =
      goStr "\x7b\"data\":" ++ jsonQuoteStr d ++ goStr ",\"Buf\":null\x7d"
    simp only [List.append_assoc]
    rw [hlit]
  unfold createBaseRequest
  rw [show urlParse endpointStr = .ok barURL from rfl]
  rw [hbody]
  rfl

/-- C5 counterexample: an explicit upper-case scheme is not preserved
unchanged; the parser lower-cases it, so the validated form of the input
with scheme HTTP starts with http and not with HTTP. -/
theorem c5_counterexample :
    ValidateURL (goStr "HTTP://bar.com") = .ok (goStr "http://bar.com") ∧
    getScheme (goStr "HTTP://bar.com") = .ok (goStr "HTTP", goStr "//bar.com") ∧
    strHasPfx (goStr "http://bar.com") (goStr "HTTP:") = false := by
  exact ⟨by decide, by decide, by decide⟩

/-- C6: for a target whose address validates to v, the worker emits a send
exactly when v equals the configured endpoint, and a validated address
different from the endpoint is silently skipped: the trace is just acquire,
release, done, with no send and no log line. -/
theorem c6_domain_gate (base : Request) (loc : Location) (env : WEnv) (v : GoStr)
    (h : ValidateURL loc.URL = .ok v) :
    ((workerTrace base loc env).any isSendEv = true ↔ v = endpointStr) ∧
    (v ≠ endpointStr →
      workerTrace base loc env = [Ev.acq, Ev.rel, Ev.wgDone] ∧
      (workerTrace base loc env).any isLogEv = false) := by
  have hb := workerBody_ok base loc env v h
  unfold workerTrace
  rw [hb]
  by_cases hv : v = endpointStr
  · rw [if_pos hv]
    refine ⟨⟨fun _ => hv, fun _ => ?_⟩, fun hne => absurd hv hne⟩
    simp [isSendEv]
  · rw [if_neg hv]
    refine ⟨?_, fun _ => ⟨rfl, ?_⟩⟩
    · simp [isSendEv, hv]
    · simp [isLogEv]

/-- Witness for C6 at the skipped-address scenario of the spec. -/
theorem c6_domain_gate_witness :
    (((workerTrace (default : Request) ⟨goStr "http://other.com"⟩
        ⟨false, false, false, []⟩).any isSendEv = true) ↔
      goStr "http://other.com" = endpointStr) ∧
    (goStr "http://other.com" ≠ endpointStr →
      workerTrace (default : Request) ⟨goStr "http://other.com"⟩ ⟨false, false, false, []⟩ =
          [Ev.acq, Ev.rel, Ev.wgDone] ∧
        (workerTrace (default : Request) ⟨goStr "http://other.com"⟩
          ⟨false, false, false, []⟩).any isLogEv = false) :=
  c6_domain_gate (default : Request) ⟨goStr "http://other.com"⟩ ⟨false, false, false, []⟩
    (goStr "http://other.com") (by rfl)

/-- C7: when the send fails, the worker logs the timeout message exactly
when the five-second deadline of its cancellation scope has expired at the
check, and the generic send-error message otherwise; either way it emits
nothing further, and the two log events are distinct. -/
theorem c7_timeout_classification (base : Request) (loc : Location) (env : WEnv) (v : GoStr)
    (h : ValidateURL loc.URL = .ok v) (hv : v = endpointStr) (hs : env.sendErr = true) :
    workerBody base loc env =
      [Ev.send { base with url := exToOption (urlParse v) },
        if env.deadlineExceeded then Ev.logTimeout v else Ev.logSendErr] ∧
    (∀ w : GoStr, Ev.logTimeout w ≠ Ev.logSendErr) := by
  constructor
  · rw [workerBody_ok base loc env v h, if_pos hv, hs]
    cases env.deadlineExceeded <;> simp
  · exact fun w hc => Ev.noConfusion hc

/-- Witness for C7 at a concrete timed-out send. -/
theorem c7_timeout_classification_witness :
    workerBody (default : Request) ⟨goStr "bar.com"⟩ ⟨true, true, false, []⟩ =
      [Ev.send { (default : Request) with url := exToOption (urlParse endpointStr) },
        if (⟨true, true, false, []⟩ : WEnv).deadlineExceeded then Ev.logTimeout endpointStr
        else Ev.logSendErr] ∧
    (∀ w : GoStr, Ev.logTimeout w ≠ Ev.logSendErr) :=
  c7_timeout_classification (default : Request) ⟨goStr "bar.com"⟩ ⟨true, true, false, []⟩
    endpointStr (by rfl) rfl rfl

/-- C10 counterexample: ValidateURL succeeds on the percent-escaped input
yielding a string that does not parse again, since the re-parse reads the
escape as part of the host, where an escaped ASCII byte is rejected; the
general round-trip property behind the claim is therefore false. -/
theorem c10_counterexample :
    ValidateURL (goStr "%2f") = .ok (goStr "https://%2f") ∧
    exOk (urlParse (goStr "https://%2f")) = false := by
  exact ⟨by decide, by decide⟩

/-- C10 amended: the worker only re-parses the validated URL inside the
domain gate, where it equals the fixed endpoint; that string parses, so the
error discarded on line 95 is nil there and the cloned request's URL is
never left nil on any sent request. -/
theorem c10_amended (base : Request) (loc : Location) (env : WEnv) (r : Request)
    (h : Ev.send r ∈ workerBody base loc env) :
    urlParse endpointStr = .ok barURL ∧ r.url = some barURL ∧ r.url ≠ none := by
  have hr : r = { base with url := exToOption (urlParse endpointStr) } := by
    cases hval : ValidateURL loc.URL with
    | error e =>
      unfold workerBody at h
      rw [hval] at h
      simp at h
    | ok v =>
      rw [workerBody_ok base loc env v hval] at h
      by_cases hv : v = endpointStr
      · rw [if_pos hv] at h
        simp only [List.mem_cons] at h
        rcases h with h | h
        · injection h with h
          rw [h, hv]
        · exfalso
          cases hs : env.sendErr <;> rw [hs] at h <;>
            cases hd : env.deadlineExceeded <;>
            cases hc : env.copyErr <;> simp_all
      · rw [if_neg hv] at h
        simp at h
  refine ⟨rfl, ?_, ?_⟩
  · rw [hr]
    rfl
  · rw [hr]
    simp [exToOption, show urlParse endpointStr = .ok barURL from rfl]

/-- Witness for C10 amended on a concrete matching target. -/
theorem c10_amended_witness :
    urlParse endpointStr = .ok barURL ∧
    ({ (default : Request) with url := exToOption (urlParse endpointStr) }).url =
        some barURL ∧
    ({ (default : Request) with url := exToOption (urlParse endpointStr) }).url ≠ none :=
  c10_amended (default : Request) ⟨goStr "bar.com"⟩ ⟨false, false, false, []⟩
    { (default : Request) with url := exToOption (urlParse endpointStr) } (by decide)

/-- Every list is a prefix of itself. -/
theorem strHasPfx_refl : ∀ a : GoStr, strHasPfx a a = true := by
  intro a
  induction a with
  | nil => rfl
  | cons x a2 ih => simp [strHasPfx, ih]

/-- Extending a list on the right keeps its prefixes. -/
theorem strHasPfx_trans_append : ∀ (p a b : GoStr),
    strHasPfx a p = true → strHasPfx (a ++ b) p = true := by
  intro p
  induction p with
  | nil => intro a b _; cases a ++ b <;> rfl
  | cons x p2 ih =>
    intro a b h
    cases a with
    | nil => cases h
    | cons y a2 =>
      simp only [strHasPfx, List.cons_append] at *
      split at h
      · rename_i hyx
        simp only [strHasPfx, if_pos hyx]
        exact ih a2 b h
      · cases h

/-- The string form of a URL with a scheme starts with that scheme and a
colon. -/
theorem urlString_scheme_pfx (u : GoURL) (h : u.scheme ≠ []) :
    strHasPfx (urlString u) (u.scheme ++ [58]) = true := by
  unfold urlString
  rw [if_pos h]
  exact strHasPfx_trans_append _ _ _
    (strHasPfx_trans_append _ _ _
      (strHasPfx_trans_append _ _ _ (strHasPfx_refl _)))

/-- setPath leaves the scheme alone. -/
theorem setPathFn_scheme {u0 u : GoURL} {p : GoStr} (h : setPathFn u0 p = .ok u) :
    u.scheme = u0.scheme := by
  unfold setPathFn at h
  cases hr : unescapeStr p Enc.path with
  | error e => rw [hr] at h; cases h
  | ok path => rw [hr] at h; injection h with h2; rw [← h2]

/-- setFragment leaves the scheme alone. -/
theorem setFragmentFn_scheme {u0 u : GoURL} {f : GoStr} (h : setFragmentFn u0 f = .ok u) :
    u.scheme = u0.scheme := by
  unfold setFragmentFn at h
  cases hr : unescapeStr f Enc.fragment with
  | error e => rw [hr] at h; cases h
  | ok frag => rw [hr] at h; injection h with h2; rw [← h2]

/-- The opaque, authority and path handling returns a URL carrying exactly
the scheme it was given. -/
theorem parseAfterScheme_scheme {scheme rest : GoStr} {fq : Bool} {rq : GoStr}
    {vr : Bool} {u : GoURL} (h : parseAfterScheme scheme rest fq rq vr = .ok u) :
    u.scheme = scheme := by
  unfold parseAfterScheme at h
  split at h
  · injection h with h2; rw [← h2]
  · split at h
    · cases h
    · split at h
      · cases h
      · split at h
        · cases hpa : parseAuthority (authoritySplit rest).1 with
          | error e => rw [hpa] at h; cases h
          | ok pr => rw [hpa] at h; exact setPathFn_scheme h
        · exact setPathFn_scheme h

/-- A successfully parsed URL either has no scheme, or its scheme is the
lower-cased explicit scheme that getScheme splits off the input. -/
theorem urlParseInner_scheme_cases (raw : GoStr) (u : GoURL)
    (h : urlParseInner raw false = .ok u) :
    u.scheme = [] ∨
      ∃ sch rest, getScheme raw = .ok (sch, rest) ∧ u.scheme = toLowerStr sch := by
  unfold urlParseInner at h
  split at h
  · cases h
  · split at h
    · cases h
    · split at h
      · injection h with h2
        left
        rw [← h2]
        rfl
      · cases hg : getScheme raw with
        | error e => rw [hg] at h; cases h
        | ok pr =>
          rw [hg] at h
          have h2 : (if strHasSfx pr.2 [63] ∧ ¬ containsByte pr.2.dropLast 63 then
              parseAfterScheme (toLowerStr pr.1) pr.2.dropLast true [] false
            else parseAfterScheme (toLowerStr pr.1) (cutByte 63 pr.2).1 false
              (cutByte 63 pr.2).2 false) = .ok u := h
          right
          refine ⟨pr.1, pr.2, rfl, ?_⟩
          split at h2
          · exact parseAfterScheme_scheme h2
          · exact parseAfterScheme_scheme h2

/-- Lifting of the scheme characterization through the fragment split of
Parse. -/
theorem urlParse_scheme_cases (raw : GoStr) (u : GoURL) (h : urlParse raw = .ok u) :
    u.scheme = [] ∨
      ∃ sch rest, getScheme (cutByte 35 raw).1 = .ok (sch, rest) ∧
        u.scheme = toLowerStr sch := by
  unfold urlParse at h
  cases hi : urlParseInner (cutByte 35 raw).1 false with
  | error e => rw [hi] at h; cases h
  | ok u0 =>
    rw [hi] at h
    have h2 : (if (cutByte 35 raw).2 = [] then Except.ok u0
        else setFragmentFn u0 (cutByte 35 raw).2) = .ok u := h
    have hs : u.scheme = u0.scheme := by
      split at h2
      · injection h2 with h3; rw [← h3]
      · exact setFragmentFn_scheme h2
    rcases urlParseInner_scheme_cases _ _ hi with h0 | ⟨sch, rest, hg, hsch⟩
    · left; rw [hs, h0]
    · right; exact ⟨sch, rest, hg, by rw [hs, hsch]⟩

/-- C5 amended: ValidateURL fails exactly when parsing fails; when parsing
succeeds and the URL has no scheme, the result is the canonical string of
the URL with scheme https installed, and starts with https and a colon;
when the input carries an explicit scheme, the result is the canonical
string of the parsed URL and starts with the LOWER-CASED explicit scheme
followed by a colon — the scheme is preserved only up to ASCII
lower-casing, not unchanged. -/
theorem c5_amended (raw : GoStr) :
    (exOk (ValidateURL raw) = exOk (urlParse raw)) ∧
    (∀ u, urlParse raw = .ok u → u.scheme = [] →
      ValidateURL raw = .ok (urlString { u with scheme := goStr "https" }) ∧
      strHasPfx (urlString { u with scheme := goStr "https" }) (goStr "https:") = true) ∧
    (∀ u, urlParse raw = .ok u → u.scheme ≠ [] →
      ValidateURL raw = .ok (urlString u) ∧
      strHasPfx (urlString u) (u.scheme ++ [58]) = true ∧
      ∃ sch rest, getScheme (cutByte 35 raw).1 = .ok (sch, rest) ∧
        u.scheme = toLowerStr sch) := by
  refine ⟨?_, ?_, ?_⟩
  · unfold ValidateURL
    cases hp : urlParse raw with
    | error e => rfl
    | ok u => by_cases h0 : u.scheme = [] <;> simp [h0, exOk]
  · intro u hp h0
    constructor
    · unfold ValidateURL
      rw [hp]
      show (if u.scheme = [] then Except.ok (urlString { u with scheme := goStr "https" })
        else Except.ok (urlString u)) =
          Except.ok (urlString { u with scheme := goStr "https" })
      rw [if_pos h0]
    · have : ({ u with scheme := goStr "https" } : GoURL).scheme = goStr "https" := rfl
      have hpfx := urlString_scheme_pfx { u with scheme := goStr "https" } (by rw [this]; decide)
      rw [this] at hpfx
      exact hpfx
  · intro u hp h0
    refine ⟨?_, urlString_scheme_pfx u h0, ?_⟩
    · unfold ValidateURL
      rw [hp]
      show (if u.scheme = [] then Except.ok (urlString { u with scheme := goStr "https" })
        else Except.ok (urlString u)) = Except.ok (urlString u)
      rw [if_neg h0]
    · rcases urlParse_scheme_cases raw u hp with h | h
      · exact absurd h h0
      · exact h

/-- Witness for C5 amended, at a scheme-less and at a schemed input. -/
theorem c5_amended_witness :
    (ValidateURL (goStr "bar.com") =
        .ok (urlString { { emptyGoURL with path := goStr "bar.com" } with
          scheme := goStr "https" }) ∧
      strHasPfx (urlString { { emptyGoURL with path := goStr "bar.com" } with
          scheme := goStr "https" }) (goStr "https:") = true) ∧
    (ValidateURL (goStr "http://other.com") =
        .ok (urlString { emptyGoURL with scheme := goStr "http", host := goStr "other.com" }) ∧
      strHasPfx (urlString { emptyGoURL with scheme := goStr "http", host := goStr "other.com" })
          (({ emptyGoURL with scheme := goStr "http", host := goStr "other.com" } : GoURL).scheme
            ++ [58]) = true ∧
      ∃ sch rest,
        getScheme (cutByte 35 (goStr "http://other.com")).1 = .ok (sch, rest) ∧
          ({ emptyGoURL with scheme := goStr "http", host := goStr "other.com" } : GoURL).scheme =
            toLowerStr sch) :=
  ⟨(c5_amended (goStr "bar.com")).2.1 { emptyGoURL with path := goStr "bar.com" }
      (by decide) (by decide),
    (c5_amended (goStr "http://other.com")).2.2
      { emptyGoURL with scheme := goStr "http", host := goStr "other.com" }
      (by decide) (by decide)⟩

/-- C8: the process exits 1 exactly when reading the input file fails,
parsing its contents fails, or building the template fails; in every other
case the exit code is 0 and there is an execution in which every dispatched
worker runs to completion before the exit, whatever the individual worker
outcomes — including every worker failing. -/
theorem c8_exit_behavior (menv : MainEnv) :
    (mainExit menv = 1 ↔
      (exOk menv.fileData = false ∨
        (∃ d, menv.fileData = .ok d ∧ exOk (menv.unmarshalRes d) = false) ∨
        exOk (createBaseRequest examplePayload) = false)) ∧
    (∀ req locs, startupRes menv = .ok (req, locs) →
      mainExit menv = 0 ∧
      ∃ fin : Sys, Reach (initSys req locs menv.envs) fin ∧ fin.count = 0 ∧
        ∀ r ∈ fin.workers, r = []) := by
  constructor
  · cases hf : menv.fileData with
    | error e =>
      have hs : startupRes menv = .error e := by
        unfold startupRes
        rw [hf]
      have hm : mainExit menv = 1 := by
        unfold mainExit
        rw [hs]
      exact ⟨fun _ => Or.inl rfl, fun _ => hm⟩
    | ok d =>
      cases hu : menv.unmarshalRes d with
      | error e2 =>
        have hs : startupRes menv = .error e2 := by
          unfold startupRes
          rw [hf]
          show (match menv.unmarshalRes d with
            | Except.error e => Except.error e
            | Except.ok locs =>
              match createBaseRequest examplePayload with
              | Except.error e => Except.error e
              | Except.ok req => Except.ok (req, locs)) = Except.error e2
          rw [hu]
        have hm : mainExit menv = 1 := by
          unfold mainExit
          rw [hs]
        exact ⟨fun _ => Or.inr (Or.inl ⟨d, rfl, by rw [hu]; rfl⟩), fun _ => hm⟩
      | ok locs =>
        have hs : startupRes menv =
            .ok ({ method := goStr "POST", url := some barURL
                   header := [(goStr "Content-Type", goStr "application/json")]
                   body := goStr "\x7b\"data\":\"example data\",\"Buf\":null\x7d" }, locs) := by
          unfold startupRes
          rw [hf]
          show (match menv.unmarshalRes d with
            | Except.error e => Except.error e
            | Except.ok locs =>
              match createBaseRequest examplePayload with
              | Except.error e => Except.error e
              | Except.ok req => Except.ok (req, locs)) = _
          rw [hu, show createBaseRequest examplePayload =
            .ok { method := goStr "POST", url := some barURL
                  header := [(goStr "Content-Type", goStr "application/json")]
                  body := goStr "\x7b\"data\":\"example data\",\"Buf\":null\x7d" } from by decide]
        have hm : mainExit menv = 0 := by
          unfold mainExit
          rw [hs]
        constructor
        · intro h1
          rw [hm] at h1
          exact absurd h1 (by decide)
        · intro hbad
          exfalso
          rcases hbad with hbad | ⟨d2, hd2, hbad⟩ | hbad
          · simp [exOk] at hbad
          · injection hd2 with hd2
            rw [← hd2, hu] at hbad
            simp [exOk] at hbad
          · rw [show exOk (createBaseRequest examplePayload) = true from by decide] at hbad
            cases hbad
  · intro req locs hok
    refine ⟨?_, ⟨0, List.replicate locs.length []⟩, drain_all req menv.envs locs 0, rfl,
      fun r hr => List.eq_of_mem_replicate hr⟩
    unfold mainExit
    rw [hok]

/-- Witness for C8 on a concrete environment with one failing worker. -/
theorem c8_exit_behavior_witness :
    mainExit { fileData := .ok (goStr "[]")
               unmarshalRes := fun _ => .ok [⟨goStr "bar.com"⟩]
               envs := fun _ => ⟨true, false, false, []⟩ } = 0 ∧
    ∃ fin : Sys,
      Reach (initSys { method := goStr "POST", url := some barURL
                       header := [(goStr "Content-Type", goStr "application/json")]
                       body := goStr "\x7b\"data\":\"example data\",\"Buf\":null\x7d" }
          [⟨goStr "bar.com"⟩]
          ({ fileData := .ok (goStr "[]")
             unmarshalRes := fun _ => .ok [⟨goStr "bar.com"⟩]
             envs := fun _ => ⟨true, false, false, []⟩ } : MainEnv).envs) fin ∧
        fin.count = 0 ∧ ∀ r ∈ fin.workers, r = [] :=
  (c8_exit_behavior _).2
    { method := goStr "POST", url := some barURL
      header := [(goStr "Content-Type", goStr "application/json")]
      body := goStr "\x7b\"data\":\"example data\",\"Buf\":null\x7d" }
    [⟨goStr "bar.com"⟩] (by decide)

/-- C9: cloning the shared template with the destination override writes
only a fresh cell: the template cell and every other pre-existing cell are
unchanged, and the clone equals the template except for its URL field —
method, header and body carry over. -/
theorem c9_clone_frame (h : Heap) (i : Nat) (v : GoStr) (t : Request)
    (ht : h.cells.get? i = some t) :
    (cloneAndOverride h i v).1.cells.get? (cloneAndOverride h i v).2 =
        some { t with url := exToOption (urlParse v) } ∧
    ∀ k, k < h.cells.length → (cloneAndOverride h i v).1.cells.get? k = h.cells.get? k := by
  unfold cloneAndOverride
  simp only [ht, Option.getD_some]
  constructor
  · exact List.get?_concat_length _ _
  · intro k hk
    exact List.get?_append hk

/-- Witness for C9 on a one-cell heap holding the template. -/
theorem c9_clone_frame_witness :
    (cloneAndOverride ⟨[(default : Request)]⟩ 0 endpointStr).1.cells.get?
        (cloneAndOverride ⟨[(default : Request)]⟩ 0 endpointStr).2 =
      some { (default : Request) with url := exToOption (urlParse endpointStr) } ∧
    ∀ k, k < (Heap.mk [(default : Request)]).cells.length →
      (cloneAndOverride ⟨[(default : Request)]⟩ 0 endpointStr).1.cells.get? k =
        (Heap.mk [(default : Request)]).cells.get? k :=
  c9_clone_frame ⟨[(default : Request)]⟩ 0 endpointStr (default : Request) rfl

end DispatchModel

